import Mathlib

/-!
Verification of the SiftView content-analysis engine (web bridge
implementations): type detection, line segmentation, segmented
formatting, and the two diff renderings.  Buffers are `String`s;
the character-level helpers below model the JavaScript string
primitives (`split`, `trim`, `includes`, `startsWith`, `toLowerCase`)
used by the source.
-/

namespace SiftView

/-- Whitespace test used by the model of JavaScript `trim` (ASCII subset). -/
def isSpaceChar (c : Char) : Bool :=
  c = ' ' || c = '\t' || c = '\n' || c = '\r'

/-- Model of JavaScript `String.prototype.split` with a one-character
separator: always returns at least one (possibly empty) field. -/
def splitOnChar (sep : Char) : List Char → List (List Char)
  | [] => [[]]
  | c :: cs =>
    if c = sep then [] :: splitOnChar sep cs
    else
      match splitOnChar sep cs with
      | [] => [[c]]
      | l :: ls => (c :: l) :: ls

/-- Model of JavaScript `trim` (drop leading and trailing whitespace). -/
def trimChars (l : List Char) : List Char :=
  ((l.dropWhile isSpaceChar).reverse.dropWhile isSpaceChar).reverse

/-- `content.split("\n")` from the source, on `String`s. -/
def splitLines (s : String) : List String :=
  (splitOnChar '\n' s.data).map String.mk

/-- `lines.join("\n")` from the source. -/
def joinLines : List String → String
  | [] => ""
  | [s] => s
  | s :: rest => s ++ "\n" ++ joinLines rest

/-- Number of lines of a buffer under the split convention of the source
(an empty buffer has one empty line). -/
def numLines (s : String) : Nat := (splitLines s).length

/-- ASCII model of JavaScript `toLowerCase`. -/
def toLowerStr (s : String) : String := String.mk (s.data.map Char.toLower)

/-! ## Detector (`webDetectContent`) -/

/-- Result of content-kind detection: a kind tag and a confidence. -/
structure DetectionResult where
  kind : String
  confidence : ℚ
deriving DecidableEq

/-- The static extension table of `webDetectContent`. -/
def extKindTable : List String :=
  ["json", "csv", "xml", "html", "yaml", "yml", "env", "properties"]

/-- Extension-to-kind remapping of `webDetectContent`
(`yml` to `yaml`; `env` and `properties` to `properties`). -/
def mapExtKind (e : String) : String :=
  if e = "yml" then "yaml"
  else if e = "env" ∨ e = "properties" then "properties"
  else e

/-- Embedding of `webDetectContent` from the source: extension table first,
then content sniffing on the trimmed buffer, else plain text. -/
def webDetectContent (content extension : String) : DetectionResult :=
  let ext := toLowerStr extension
  if ext ∈ extKindTable then ⟨mapExtKind ext, 95/100⟩
  else
    let t := trimChars content.data
    if (t.head? = some '\x7b' ∧ '"' ∈ t) ∨ (t.head? = some '[' ∧ '"' ∈ t) then
      ⟨"json", 85/100⟩
    else if ',' ∈ t ∧ '\n' ∈ t ∧ ',' ∈ (splitOnChar '\n' t).headD [] then
      ⟨"csv", 7/10⟩
    else ⟨"text", 1/2⟩

/-! ## Segmenter (`webDetectSegments`) -/

/-- A line-aligned segment of a buffer, 1-based inclusive range. -/
structure Segment where
  start_line : Nat
  end_line : Nat
  kind : String
deriving DecidableEq

/-- Per-line kind classification of `webDetectSegments`: a trimmed line
starting with a brace or bracket is `json`; a line containing a comma with
at least two comma-separated fields is `csv`; otherwise `text`. -/
def classifyLine (line : String) : String :=
  let t := trimChars line.data
  if t.head? = some '\x7b' ∨ t.head? = some '[' then "json"
  else if ',' ∈ line.data ∧ 2 ≤ (splitOnChar ',' line.data).length then "csv"
  else "text"

/-- One body step of the segment scan: extend the most recent segment when
the kind matches and the line is its immediate successor, else open a new
segment.  The accumulator keeps the most recent segment at the head. -/
def segStep (segs : List Segment) (line1 : Nat) (kind : String) : List Segment :=
  match segs with
  | last :: prev =>
    if last.kind = kind ∧ last.end_line + 1 = line1 then
      { last with end_line := line1 } :: prev
    else ⟨line1, line1, kind⟩ :: last :: prev
  | [] => [⟨line1, line1, kind⟩]

/-- The line scan of `webDetectSegments`: blank lines are skipped, other
lines are classified and folded through `segStep`.  Result is in reverse
order (most recent segment first). -/
def segLoop : List String → Nat → List Segment → List Segment
  | [], _, segs => segs
  | line :: rest, line1, segs =>
    if trimChars line.data = [] then segLoop rest (line1 + 1) segs
    else segLoop rest (line1 + 1) (segStep segs line1 (classifyLine line))

/-- Hint-to-kind mapping of the zero-lines branch of `webDetectSegments`
(empty hint means plain text; no lowercasing in this function). -/
def hintKind (extension : String) : String :=
  if extension = "" then "text"
  else if extension = "yml" then "yaml"
  else if extension = "env" ∨ extension = "properties" then "properties"
  else extension

/-- Embedding of `webDetectSegments` from the source.  Note the first
branch requires the split line list to be empty, which never happens
because the split always yields at least one field. -/
def webDetectSegments (content extension : String) : List Segment :=
  let lines := splitLines content
  if lines.length = 0 then [⟨1, 1, hintKind extension⟩]
  else
    let segs := (segLoop lines 1 []).reverse
    if 0 < segs.length then segs
    else [⟨1, if lines.length = 0 then 1 else lines.length, "text"⟩]

/-! ## Diff engine (`webComputeDiff`, `webComputeDiffStructured`) -/

/-- A block of the structured diff: a run of identical lines with its
count, or a changed run holding deleted and inserted lines. -/
inductive DiffBlock where
  | unchanged (count : Nat) (lines : List String) : DiffBlock
  | changed (old_lines : List String) (new_lines : List String) : DiffBlock
deriving DecidableEq

/-- The longest common prefix of two line lists: the run collected by the
inner loop of the unchanged branch of `webComputeDiffStructured`. -/
def commonRun : List String → List String → List String
  | a :: as, b :: bs => if a = b then a :: commonRun as bs else []
  | _, _ => []

/-- The run collected by one inner loop of the changed branch of
`webComputeDiffStructured`: consume lines while they differ from the
(fixed) stop line; `none` means the other side is exhausted, so
everything is consumed.  Returns the run and the remaining suffix. -/
def takeWhileNe (stop : Option String) : List String → List String × List String
  | [] => ([], [])
  | a :: as =>
    if stop = some a then ([], a :: as)
    else
      let p := takeWhileNe stop as
      (a :: p.1, p.2)

/-- The outer loop of `webComputeDiffStructured` over the two line lists,
with explicit fuel standing for the loop counter (the caller supplies fuel
larger than the total number of lines, which is always enough since every
iteration consumes at least one line). -/
def diffBlocksF : Nat → List String → List String → List DiffBlock
  | _, [], [] => []
  | 0, _, _ => []
  | fuel + 1, [], b :: bs => DiffBlock.changed [] (b :: bs) :: diffBlocksF fuel [] []
  | fuel + 1, a :: as, [] => DiffBlock.changed (a :: as) [] :: diffBlocksF fuel [] []
  | fuel + 1, a :: as, b :: bs =>
    if a = b then
      let run := commonRun (a :: as) (b :: bs)
      DiffBlock.unchanged run.length run ::
        diffBlocksF fuel ((a :: as).drop run.length) ((b :: bs).drop run.length)
    else
      let po := takeWhileNe (some b) (a :: as)
      let pn := takeWhileNe po.2.head? (b :: bs)
      DiffBlock.changed po.1 pn.1 :: diffBlocksF fuel po.2 pn.2

/-- A structured diff: the two display labels and the block sequence. -/
structure StructuredDiff where
  left_label : String
  right_label : String
  blocks : List DiffBlock
deriving DecidableEq

/-- Embedding of `webComputeDiffStructured` from the source.  The labels
are the fixed strings of the source. -/
def webComputeDiffStructured (left right : String) : StructuredDiff :=
  let l := splitLines left
  let r := splitLines right
  ⟨"current", "clipboard", diffBlocksF (l.length + r.length + 1) l r⟩

/-- The loop of `webComputeDiff` over the two line lists (fuel as above).
A matched line is emitted with a space, the current right line is inserted
with a plus when it matches neither of the next two left lines, otherwise
the current left line is deleted with a minus. -/
def diffLinesF : Nat → List String → List String → List String
  | _, [], [] => []
  | 0, _, _ => []
  | fuel + 1, [], b :: bs => ("+" ++ b) :: diffLinesF fuel [] bs
  | fuel + 1, a :: as, [] => ("-" ++ a) :: diffLinesF fuel as []
  | fuel + 1, a :: as, b :: bs =>
    if a = b then (" " ++ a) :: diffLinesF fuel as bs
    else if as.head? = some b then ("-" ++ a) :: diffLinesF fuel as (b :: bs)
    else ("+" ++ b) :: diffLinesF fuel (a :: as) bs

/-- The hunk body of the unified diff: every line after the two headers. -/
def unifiedBody (left right : String) : List String :=
  let l := splitLines left
  let r := splitLines right
  diffLinesF (l.length + r.length + 1) l r

/-- Embedding of `webComputeDiff` from the source: two header lines
followed by the hunk body, joined with newlines. -/
def webComputeDiff (left right : String) : String :=
  joinLines ("--- current" :: "+++ clipboard" :: unifiedBody left right)

/-- Sum of the deleted-line counts over all changed blocks. -/
def sumOld : List DiffBlock → Nat
  | [] => 0
  | DiffBlock.unchanged _ _ :: rest => sumOld rest
  | DiffBlock.changed o _ :: rest => o.length + sumOld rest

/-- Sum of the inserted-line counts over all changed blocks. -/
def sumNew : List DiffBlock → Nat
  | [] => 0
  | DiffBlock.unchanged _ _ :: rest => sumNew rest
  | DiffBlock.changed _ n :: rest => n.length + sumNew rest

/-- Whether a rendered diff line begins with the given marker character. -/
def startsWithChar (c : Char) (s : String) : Bool :=
  s.data.head? == some c

/-- Number of lines of a diff body beginning with the given marker. -/
def countLinesStarting (c : Char) (body : List String) : Nat :=
  (body.filter (startsWithChar c)).length

/-! ## JSON model

`webFormatJson` calls the JavaScript builtins `JSON.parse` and
`JSON.stringify(v, null, 2)`.  The model below covers the fragment those
calls exercise here: objects, arrays, strings with the common escapes,
integer numerals, booleans and null.  Parsing a non-integer numeral is
modelled as a failure. -/

mutual

inductive Json where
  | null : Json
  | bool (b : Bool) : Json
  | num (n : Int) : Json
  | str (s : List Char) : Json
  | arr (elems : JsonList) : Json
  | obj (members : JsonMembers) : Json

inductive JsonList where
  | nil : JsonList
  | cons (head : Json) (tail : JsonList) : JsonList

inductive JsonMembers where
  | nil : JsonMembers
  | cons (key : List Char) (val : Json) (tail : JsonMembers) : JsonMembers

end

/-- Drop leading JSON whitespace. -/
def skipWs (l : List Char) : List Char := l.dropWhile isSpaceChar

/-- The common JSON string escapes. -/
def escChar (c : Char) : Option Char :=
  if c = '"' then some '"'
  else if c = '\\' then some '\\'
  else if c = '/' then some '/'
  else if c = 'n' then some '\n'
  else if c = 't' then some '\t'
  else if c = 'r' then some '\r'
  else none

/-- Parse the remainder of a JSON string literal (after the opening
quote), returning its characters and the input after the closing quote. -/
def parseStrBody : List Char → Option (List Char × List Char)
  | [] => none
  | '"' :: rest => some ([], rest)
  | '\\' :: e :: rest =>
    match escChar e with
    | none => none
    | some c =>
      match parseStrBody rest with
      | none => none
      | some (s, rs) => some (c :: s, rs)
  | c :: rest =>
    match parseStrBody rest with
    | none => none
    | some (s, rs) => some (c :: s, rs)

/-- Numeric value of a decimal digit character. -/
def digitVal (c : Char) : Nat := c.toNat - '0'.toNat

/-- Natural number denoted by a list of decimal digits. -/
def natFromDigits (ds : List Char) : Nat :=
  ds.foldl (fun a c => a * 10 + digitVal c) 0

/-- Parse a JSON integer numeral (optional minus sign then digits); a
fractional or exponent part makes the model fail. -/
def parseNum (input : List Char) : Option (Json × List Char) :=
  let neg : Bool := input.head? = some '-'
  let l := if neg then input.tail else input
  let digits := l.takeWhile Char.isDigit
  let rest := l.dropWhile Char.isDigit
  if digits = [] then none
  else
    match rest.head? with
    | some '.' => none
    | some 'e' => none
    | some 'E' => none
    | _ =>
      some (Json.num (if neg then -(natFromDigits digits : Int) else (natFromDigits digits : Int)), rest)

mutual

/-- Recursive-descent parse of one JSON value; fuel bounds the nesting
and sequencing depth (one unit per parsed value or list link). -/
def parseVal : Nat → List Char → Option (Json × List Char)
  | 0, _ => none
  | fuel + 1, input =>
    match skipWs input with
    | [] => none
    | c :: rest =>
      if c = 'n' then
        match rest with
        | 'u' :: 'l' :: 'l' :: rs => some (Json.null, rs)
        | _ => none
      else if c = 't' then
        match rest with
        | 'r' :: 'u' :: 'e' :: rs => some (Json.bool true, rs)
        | _ => none
      else if c = 'f' then
        match rest with
        | 'a' :: 'l' :: 's' :: 'e' :: rs => some (Json.bool false, rs)
        | _ => none
      else if c = '"' then
        match parseStrBody rest with
        | some (s, rs) => some (Json.str s, rs)
        | none => none
      else if c = '[' then
        match skipWs rest with
        | ']' :: rs => some (Json.arr JsonList.nil, rs)
        | other =>
          match parseElems fuel other with
          | some (xs, rs) => some (Json.arr xs, rs)
          | none => none
      else if c = '\x7b' then
        match skipWs rest with
        | '\x7d' :: rs => some (Json.obj JsonMembers.nil, rs)
        | other =>
          match parseMembers fuel other with
          | some (ms, rs) => some (Json.obj ms, rs)
          | none => none
      else if c = '-' ∨ c.isDigit then parseNum (c :: rest)
      else none

/-- Parse the comma-separated elements of a non-empty JSON array up to and
including the closing bracket. -/
def parseElems : Nat → List Char → Option (JsonList × List Char)
  | 0, _ => none
  | fuel + 1, input =>
    match parseVal fuel input with
    | none => none
    | some (v, rest) =>
      match skipWs rest with
      | ',' :: rs =>
        match parseElems fuel rs with
        | some (xs, rs2) => some (JsonList.cons v xs, rs2)
        | none => none
      | ']' :: rs => some (JsonList.cons v JsonList.nil, rs)
      | _ => none

/-- Parse the comma-separated members of a non-empty JSON object up to and
including the closing brace. -/
def parseMembers : Nat → List Char → Option (JsonMembers × List Char)
  | 0, _ => none
  | fuel + 1, input =>
    match skipWs input with
    | '"' :: rest =>
      match parseStrBody rest with
      | none => none
      | some (k, rest2) =>
        match skipWs rest2 with
        | ':' :: rest3 =>
          match parseVal fuel rest3 with
          | none => none
          | some (v, rest4) =>
            match skipWs rest4 with
            | ',' :: rs =>
              match parseMembers fuel rs with
              | some (ms, rs2) => some (JsonMembers.cons k v ms, rs2)
              | none => none
            | '\x7d' :: rs => some (JsonMembers.cons k v JsonMembers.nil, rs)
            | _ => none
        | _ => none
    | _ => none

end

/-- Decimal digit character for a value below ten. -/
def digitChar (n : Nat) : Char :=
  if n = 0 then '0' else if n = 1 then '1' else if n = 2 then '2'
  else if n = 3 then '3' else if n = 4 then '4' else if n = 5 then '5'
  else if n = 6 then '6' else if n = 7 then '7' else if n = 8 then '8'
  else '9'

/-- Decimal digits of a natural number (fuelled most-significant-first
expansion; the caller passes fuel above the digit count). -/
def natDigits : Nat → Nat → List Char
  | 0, _ => []
  | fuel + 1, n =>
    if n < 10 then [digitChar n]
    else natDigits fuel (n / 10) ++ [digitChar (n % 10)]

/-- Decimal rendering of an integer, as `JSON.stringify` prints it. -/
def numToChars (n : Int) : List Char :=
  if n < 0 then '-' :: natDigits (n.natAbs + 1) n.natAbs
  else natDigits (n.natAbs + 1) n.natAbs

/-- A JSON string literal with the common escapes applied. -/
def quoteStr (s : List Char) : List Char :=
  '"' :: (s.flatMap fun c =>
    if c = '"' then ['\\', '"']
    else if c = '\\' then ['\\', '\\']
    else if c = '\n' then ['\\', 'n']
    else if c = '\t' then ['\\', 't']
    else if c = '\r' then ['\\', 'r']
    else [c]) ++ ['"']

/-- Indentation of the given width. -/
def indentChars (n : Nat) : List Char := List.replicate n ' '

mutual

/-- Model of `JSON.stringify(v, null, 2)` at the given indentation. -/
def stringifyVal : Nat → Json → List Char
  | _, Json.null => "null".data
  | _, Json.bool true => "true".data
  | _, Json.bool false => "false".data
  | _, Json.num n => numToChars n
  | _, Json.str s => quoteStr s
  | _, Json.arr JsonList.nil => "[]".data
  | ind, Json.arr (JsonList.cons v vs) =>
    '[' :: '\n' ::
      (List.intercalate [',', '\n']
        (stringifyArrItems (ind + 2) (JsonList.cons v vs)) ++
       '\n' :: (indentChars ind ++ [']']))
  | _, Json.obj JsonMembers.nil => "\x7b\x7d".data
  | ind, Json.obj (JsonMembers.cons k v ms) =>
    '\x7b' :: '\n' ::
      (List.intercalate [',', '\n']
        (stringifyObjItems (ind + 2) (JsonMembers.cons k v ms)) ++
       '\n' :: (indentChars ind ++ ['\x7d']))

/-- Indented renderings of the elements of an array. -/
def stringifyArrItems : Nat → JsonList → List (List Char)
  | _, JsonList.nil => []
  | ind, JsonList.cons v vs =>
    (indentChars ind ++ stringifyVal ind v) :: stringifyArrItems ind vs

/-- Indented `"key": value` renderings of the members of an object. -/
def stringifyObjItems : Nat → JsonMembers → List (List Char)
  | _, JsonMembers.nil => []
  | ind, JsonMembers.cons k v ms =>
    (indentChars ind ++ quoteStr k ++ ':' :: ' ' :: stringifyVal ind v) ::
      stringifyObjItems ind ms

end

/-- Embedding of `webFormatJson` from the source: parse the whole buffer
as JSON and pretty-print it with two-space indentation; `none` stands for
the thrown invalid-JSON error. -/
def webFormatJson (content : String) : Option String :=
  match parseVal (content.data.length + 1) content.data with
  | some (v, rest) =>
    if skipWs rest = [] then some (String.mk (stringifyVal 0 v)) else none
  | none => none

example : webFormatJson "\x7b\"a\":1\x7d" = some "\x7b\n  \"a\": 1\n\x7d" := by decide
example : webFormatJson "[1, 2]" = some "[\n  1,\n  2\n]" := by decide
example : webFormatJson "not json" = none := by decide
example : webFormatJson "\x7b\x7d" = some "\x7b\x7d" := by decide

/-! ## Formatter (`webFormatContentSegmented`) -/

/-- Per-segment slice-and-format step of `webFormatContentSegmented`:
slice the clamped inclusive line range out of the line list, and for a
`json` segment pretty-print the slice when it parses, keeping the
original slice otherwise. -/
def formatSegChunk (lines : List String) (seg : Segment) : String :=
  let start := seg.start_line - 1
  let stop := min lines.length seg.end_line
  let chunk := joinLines ((lines.drop start).take (stop - start))
  if seg.kind = "json" then
    match webFormatJson chunk with
    | some s => s
    | none => chunk
  else chunk

/-- Embedding of `webFormatContentSegmented` from the source.  With no
segments the whole buffer is formatted as JSON when it parses; otherwise
each segment slice is processed and the results are joined with
newlines. -/
def webFormatContentSegmented (content : String) (segments : List Segment) : String :=
  let lines := splitLines content
  if lines.length = 0 then content
  else if segments.length = 0 then
    match webFormatJson content with
    | some s => s
    | none => content
  else joinLines (segments.map (formatSegChunk lines))

/-! ## Supporting lemmas -/

/-- The split of a character list is never empty. -/
theorem splitOnChar_ne_nil (sep : Char) (l : List Char) :
    splitOnChar sep l ≠ [] := by
  induction l with
  | nil => simp [splitOnChar]
  | cons c cs ih =>
    by_cases h : c = sep
    · simp [splitOnChar, h]
    · cases hs : splitOnChar sep cs with
      | nil => exact absurd hs ih
      | cons x xs => simp [splitOnChar, h, hs]

/-- A buffer always has at least one line. -/
theorem splitLines_ne_nil (s : String) : splitLines s ≠ [] := by
  simp only [splitLines, ne_eq, List.map_eq_nil_iff]
  exact splitOnChar_ne_nil '\n' s.data

/-- The common run of a list with itself is the whole list. -/
theorem commonRun_self (l : List String) : commonRun l l = l := by
  induction l with
  | nil => rfl
  | cons a as ih => simp [commonRun, ih]

/-! ## Claims about the diff engine -/

/-- Claim C1, counterexample.  The claim states that diffing
`"a\nb\nc"` against `"a\nx\nc"` structures as Unchanged ["a"], Changed
(["b"] to ["x"]), Unchanged ["c"]; the code instead folds the trailing
context line into the changed run, so the claimed block list is not
produced. -/
theorem claim1_blocks_counterexample :
    (webComputeDiffStructured "a\nb\nc" "a\nx\nc").blocks ≠
      [DiffBlock.unchanged 1 ["a"], DiffBlock.changed ["b"] ["x"],
        DiffBlock.unchanged 1 ["c"]] := by
  decide

/-- Claim C1, amended.  Diffing `"a\nb\nc"` against `"a\nx\nc"` yields the
blocks Unchanged ["a"] then Changed (["b","c"] to ["x","c"]), and the
unified body is ` a`, `+x`, `-b`, ` c` — the inserted line of the changed
run precedes the deleted line. -/
theorem claim1_blocks_amended :
    (webComputeDiffStructured "a\nb\nc" "a\nx\nc").blocks =
      [DiffBlock.unchanged 1 ["a"], DiffBlock.changed ["b", "c"] ["x", "c"]] ∧
    unifiedBody "a\nb\nc" "a\nx\nc" = [" a", "+x", "-b", " c"] ∧
    webComputeDiff "a\nb\nc" "a\nx\nc" =
      "--- current\n+++ clipboard\n a\n+x\n-b\n c" := by
  decide

/-- Claim C2, code evaluation at the failing input.  For left
`"a\nb\nc"` and right `"c"` the unified rendering has one `+` line and
three `-` lines while the structured rendering has zero inserted and two
deleted lines: the two renderings are not derived from one edit script. -/
theorem claim2_marker_counts :
    countLinesStarting '+' (unifiedBody "a\nb\nc" "c") = 1 ∧
    sumNew (webComputeDiffStructured "a\nb\nc" "c").blocks = 0 ∧
    countLinesStarting '-' (unifiedBody "a\nb\nc" "c") = 3 ∧
    sumOld (webComputeDiffStructured "a\nb\nc" "c").blocks = 2 := by
  decide

/-- Claim C3, confirmed.  Diffing any buffer against itself yields exactly
one Unchanged block carrying every line, whose count is the number of
lines of the buffer, and no Changed block. -/
theorem claim3_diff_identity (X : String) :
    (webComputeDiffStructured X X).blocks =
      [DiffBlock.unchanged (numLines X) (splitLines X)] := by
  obtain ⟨a, as, h⟩ := List.exists_cons_of_ne_nil (splitLines_ne_nil X)
  simp [webComputeDiffStructured, numLines, h, diffBlocksF, commonRun_self,
    List.drop_length]

/-- Claim C4, code evaluation at the failing input.  Swapping the inputs
`"a\nb"` and `"b"` does not swap old and new lines blockwise: one
direction produces two blocks, the other collapses to a single changed
block that swallows the matching line. -/
theorem claim4_swap_asymmetry :
    (webComputeDiffStructured "a\nb" "b").blocks =
      [DiffBlock.changed ["a"] [], DiffBlock.unchanged 1 ["b"]] ∧
    (webComputeDiffStructured "b" "a\nb").blocks =
      [DiffBlock.changed ["b"] ["a", "b"]] := by
  decide

/-! ## Claims about the segmenter -/

/-- Claim C7, code evaluation at the failing input.  For empty and
all-blank content the segmenter returns the full-buffer fallback segment
with kind `text` even when an extension hint (here `json`) is supplied:
the hint-honouring branch requires the split line list to be empty, which
never happens, so the hint is ignored. -/
theorem claim7_hint_ignored :
    webDetectSegments "" "json" = [⟨1, 1, "text"⟩] ∧
    webDetectSegments "\n" "json" = [⟨1, 2, "text"⟩] ∧
    hintKind "json" = "json" := by
  decide

/-- Claim C8, counterexample.  The claim states that the mixed buffer
splits into two segments (lines 1 to 3 as `json`, lines 5 to 6 as `csv`);
the code classifies each line in isolation, so the interior object lines
2 and 3 are classified `text` and three segments come out. -/
theorem claim8_segments_counterexample :
    webDetectSegments "\x7b\n\"a\":1\n\x7d\n\nx,y,z\n1,2,3\n" "" ≠
      [⟨1, 3, "json"⟩, ⟨5, 6, "csv"⟩] := by
  decide

/-- Claim C8, amended.  The mixed buffer splits into three segments: line
1 (`json`), lines 2 to 3 (`text`, since they neither open a brace or
bracket nor contain a comma), and lines 5 to 6 (`csv`). -/
theorem claim8_segments_amended :
    webDetectSegments "\x7b\n\"a\":1\n\x7d\n\nx,y,z\n1,2,3\n" "" =
      [⟨1, 1, "json"⟩, ⟨2, 3, "text"⟩, ⟨5, 6, "csv"⟩] := by
  decide

/-! ## Segmenter invariants (claim C9)

The scan accumulator keeps the most recent segment at the head, so the
invariants below are phrased on the reversed list: every element lies in
the buffer prefix already scanned, line ranges are well formed and
strictly descending from head to tail, and a contiguous neighbour never
shares a kind. -/

/-- Well-formed ranges lying strictly below the given line bound. -/
def segBounds (bound : Nat) (segs : List Segment) : Prop :=
  ∀ s ∈ segs, 1 ≤ s.start_line ∧ s.start_line ≤ s.end_line ∧ s.end_line < bound

/-- Invariant of the segment scan accumulator (most recent first). -/
def segInv (bound : Nat) (segs : List Segment) : Prop :=
  segBounds bound segs ∧
  List.Pairwise (fun a b => b.end_line < a.start_line) segs ∧
  List.Chain' (fun a b => b.end_line + 1 = a.start_line → b.kind ≠ a.kind) segs

theorem segInv_mono {b1 b2 : Nat} (h : b1 ≤ b2) {segs : List Segment}
    (hi : segInv b1 segs) : segInv b2 segs := by
  obtain ⟨hb, hp, hc⟩ := hi
  refine ⟨fun s hs => ?_, hp, hc⟩
  obtain ⟨h1, h2, h3⟩ := hb s hs
  exact ⟨h1, h2, lt_of_lt_of_le h3 h⟩

theorem segStep_segInv {line1 : Nat} (h1 : 1 ≤ line1) {segs : List Segment}
    (hi : segInv line1 segs) (kind : String) :
    segInv (line1 + 1) (segStep segs line1 kind) := by
  obtain ⟨hb, hp, hc⟩ := hi
  cases segs with
  | nil =>
    refine ⟨fun s hs => ?_, by simp [segStep], by simp [segStep]⟩
    simp only [segStep, List.mem_singleton] at hs
    subst hs
    exact ⟨h1, le_refl _, Nat.lt_succ_self _⟩
  | cons last prev =>
    have hlast := hb last (List.mem_cons_self _ _)
    rw [List.pairwise_cons] at hp
    by_cases h : last.kind = kind ∧ last.end_line + 1 = line1
    · simp only [segStep, if_pos h]
      refine ⟨fun s hs => ?_, ?_, ?_⟩
      · rcases List.mem_cons.mp hs with hs | hs
        · subst hs
          refine ⟨hlast.1, ?_, Nat.lt_succ_self _⟩
          exact le_of_lt (lt_of_le_of_lt hlast.2.1 hlast.2.2)
        · obtain ⟨g1, g2, g3⟩ := hb s (List.mem_cons_of_mem _ hs)
          exact ⟨g1, g2, Nat.lt_succ_of_lt g3⟩
      · rw [List.pairwise_cons]
        exact ⟨fun p hp' => hp.1 p hp', hp.2⟩
      · rw [List.chain'_cons'] at hc ⊢
        exact ⟨fun b hb' => hc.1 b hb', hc.2⟩
    · simp only [segStep, if_neg h]
      refine ⟨fun s hs => ?_, ?_, ?_⟩
      · rcases List.mem_cons.mp hs with hs | hs
        · subst hs
          exact ⟨h1, le_refl _, Nat.lt_succ_self _⟩
        · obtain ⟨g1, g2, g3⟩ := hb s hs
          exact ⟨g1, g2, Nat.lt_succ_of_lt g3⟩
      · rw [List.pairwise_cons]
        refine ⟨fun p hp' => ?_, List.pairwise_cons.mpr hp⟩
        exact (hb p hp').2.2
      · rw [List.chain'_cons]
        refine ⟨fun he => ?_, hc⟩
        intro hk
        exact h ⟨hk, he⟩

theorem segLoop_segInv :
    ∀ (lines : List String) (line1 : Nat) (acc : List Segment),
      1 ≤ line1 → segInv line1 acc →
      segInv (line1 + lines.length) (segLoop lines line1 acc) := by
  intro lines
  induction lines with
  | nil => intro line1 acc _ hi; simpa [segLoop] using hi
  | cons line rest ih =>
    intro line1 acc h1 hi
    by_cases hblank : trimChars line.data = []
    · have := ih (line1 + 1) acc (le_trans h1 (Nat.le_succ _))
        (segInv_mono (Nat.le_succ _) hi)
      simp only [segLoop, if_pos hblank]
      simpa [Nat.add_assoc, Nat.add_comm 1 rest.length] using this
    · have := ih (line1 + 1) (segStep acc line1 (classifyLine line))
        (le_trans h1 (Nat.le_succ _)) (segStep_segInv h1 hi (classifyLine line))
      simp only [segLoop, if_neg hblank]
      simpa [Nat.add_assoc, Nat.add_comm 1 rest.length] using this

/-- Claim C9, confirmed.  Every segment list produced by the segmenter has
1-based well-formed ranges, the segments are strictly ascending and
pairwise non-overlapping, and two contiguous neighbouring segments never
share a kind. -/
theorem claim9_segment_invariants (content extension : String) :
    (∀ s ∈ webDetectSegments content extension,
        1 ≤ s.start_line ∧ s.start_line ≤ s.end_line) ∧
    List.Pairwise (fun a b => a.end_line < b.start_line)
      (webDetectSegments content extension) ∧
    List.Chain' (fun a b => a.end_line + 1 = b.start_line → a.kind ≠ b.kind)
      (webDetectSegments content extension) := by
  have hne : (splitLines content).length ≠ 0 := by
    simpa [List.length_eq_zero] using splitLines_ne_nil content
  have hinv := segLoop_segInv (splitLines content) 1 [] (le_refl 1)
    ⟨fun s hs => absurd hs (List.not_mem_nil s), List.Pairwise.nil, List.chain'_nil⟩
  obtain ⟨hb, hp, hc⟩ := hinv
  unfold webDetectSegments
  simp only [if_neg hne]
  by_cases hlen : 0 < (segLoop (splitLines content) 1 []).reverse.length
  · simp only [if_pos hlen]
    refine ⟨fun s hs => ?_, ?_, ?_⟩
    · obtain ⟨g1, g2, _⟩ := hb s (List.mem_reverse.mp hs)
      exact ⟨g1, g2⟩
    · exact List.pairwise_reverse.mpr hp
    · exact List.chain'_reverse.mpr hc
  · simp only [if_neg hlen, if_neg hne]
    refine ⟨fun s hs => ?_, ?_, ?_⟩
    · simp only [List.mem_singleton] at hs
      subst hs
      exact ⟨le_refl 1, Nat.one_le_iff_ne_zero.mpr hne⟩
    · simp
    · simp

/-! ## Detector rules (claim C10) -/

/-- Characters of the first field of a split also occur in the list being
split. -/
theorem mem_of_mem_headD_splitOnChar (sep c : Char) :
    ∀ l : List Char, c ∈ (splitOnChar sep l).headD [] → c ∈ l := by
  intro l
  induction l with
  | nil => simp [splitOnChar]
  | cons x xs ih =>
    by_cases h : x = sep
    · simp [splitOnChar, h]
    · cases hs : splitOnChar sep xs with
      | nil => exact absurd hs (splitOnChar_ne_nil sep xs)
      | cons f t =>
        simp only [splitOnChar, if_neg h, hs, List.headD_cons, List.mem_cons]
        rintro (rfl | hc)
        · exact Or.inl rfl
        · exact Or.inr (ih (by simp [hs, hc]))

/-- Claim C10, confirmed.  For every content string and hint the detector
applies, in priority order: the extension-table rule at confidence 0.95;
object-notation sniffing (leading brace or bracket plus a quote) at 0.85;
tabular sniffing (a comma in the first line, with the content spanning
several lines) at 0.7; and the plain-text default at 0.5. -/
theorem claim10_detect_rules (content extension : String) :
    (toLowerStr extension ∈ extKindTable →
      webDetectContent content extension =
        ⟨mapExtKind (toLowerStr extension), 95/100⟩) ∧
    (toLowerStr extension ∉ extKindTable →
      ((trimChars content.data).head? = some '\x7b' ∨
        (trimChars content.data).head? = some '[') →
      '"' ∈ trimChars content.data →
      webDetectContent content extension = ⟨"json", 85/100⟩) ∧
    (toLowerStr extension ∉ extKindTable →
      ¬ (((trimChars content.data).head? = some '\x7b' ∨
          (trimChars content.data).head? = some '[') ∧
         '"' ∈ trimChars content.data) →
      ',' ∈ (splitOnChar '\n' (trimChars content.data)).headD [] →
      '\n' ∈ trimChars content.data →
      webDetectContent content extension = ⟨"csv", 7/10⟩) ∧
    (toLowerStr extension ∉ extKindTable →
      ¬ (((trimChars content.data).head? = some '\x7b' ∨
          (trimChars content.data).head? = some '[') ∧
         '"' ∈ trimChars content.data) →
      ¬ (',' ∈ (splitOnChar '\n' (trimChars content.data)).headD [] ∧
         '\n' ∈ trimChars content.data) →
      webDetectContent content extension = ⟨"text", 1/2⟩) := by
  refine ⟨fun ht => ?_, fun ht hj hq => ?_, fun ht hj hcomma hnl => ?_,
    fun ht hj hcsv => ?_⟩
  · simp [webDetectContent, if_pos ht]
  · have : ((trimChars content.data).head? = some '\x7b' ∧
        '"' ∈ trimChars content.data) ∨
      ((trimChars content.data).head? = some '[' ∧
        '"' ∈ trimChars content.data) := by
      rcases hj with h | h
      · exact Or.inl ⟨h, hq⟩
      · exact Or.inr ⟨h, hq⟩
    simp [webDetectContent, if_neg ht, if_pos this]
  · have hj' : ¬ (((trimChars content.data).head? = some '\x7b' ∧
        '"' ∈ trimChars content.data) ∨
      ((trimChars content.data).head? = some '[' ∧
        '"' ∈ trimChars content.data)) := by
      rintro (⟨h, hq⟩ | ⟨h, hq⟩)
      · exact hj ⟨Or.inl h, hq⟩
      · exact hj ⟨Or.inr h, hq⟩
    have hc' : ',' ∈ trimChars content.data ∧ '\n' ∈ trimChars content.data ∧
        ',' ∈ (splitOnChar '\n' (trimChars content.data)).headD [] :=
      ⟨mem_of_mem_headD_splitOnChar '\n' ',' _ hcomma, hnl, hcomma⟩
    simp only [webDetectContent, if_neg ht, if_neg hj', if_pos hc']
  · have hj' : ¬ (((trimChars content.data).head? = some '\x7b' ∧
        '"' ∈ trimChars content.data) ∨
      ((trimChars content.data).head? = some '[' ∧
        '"' ∈ trimChars content.data)) := by
      rintro (⟨h, hq⟩ | ⟨h, hq⟩)
      · exact hj ⟨Or.inl h, hq⟩
      · exact hj ⟨Or.inr h, hq⟩
    have hc' : ¬ (',' ∈ trimChars content.data ∧ '\n' ∈ trimChars content.data ∧
        ',' ∈ (splitOnChar '\n' (trimChars content.data)).headD []) := by
      rintro ⟨_, h2, h3⟩
      exact hcsv ⟨h3, h2⟩
    simp only [webDetectContent, if_neg ht, if_neg hj', if_neg hc']

/-- Claim C10, witness.  One concrete input per detection rule: an
uppercase hint hits the extension table, a bracketed quoted buffer sniffs
as `json`, a comma-and-newline buffer sniffs as `csv`, and plain prose
falls back to `text`. -/
theorem claim10_detect_rules_witness :
    webDetectContent "" "JSON" = ⟨"json", 95/100⟩ ∧
    webDetectContent " [\"x\"] " "txt" = ⟨"json", 85/100⟩ ∧
    webDetectContent "x,y\n1,2" "" = ⟨"csv", 7/10⟩ ∧
    webDetectContent "hello" "" = ⟨"text", 1/2⟩ :=
  ⟨(claim10_detect_rules "" "JSON").1 (by decide),
   (claim10_detect_rules " [\"x\"] " "txt").2.1 (by decide) (by decide) (by decide),
   (claim10_detect_rules "x,y\n1,2" "").2.2.1 (by decide) (by decide) (by decide)
     (by decide),
   (claim10_detect_rules "hello" "").2.2.2 (by decide) (by decide) (by decide)⟩

/-! ## Formatter clamping (claim C6) -/

/-- A segment clamped into the line range of a buffer with the given
number of lines. -/
def clampSeg (total : Nat) (s : Segment) : Segment :=
  ⟨max 1 s.start_line, min total s.end_line, s.kind⟩

/-- The per-segment slice step already clamps: a clamped segment produces
the identical chunk. -/
theorem formatSegChunk_clamp (lines : List String) (s : Segment) :
    formatSegChunk lines (clampSeg lines.length s) = formatSegChunk lines s := by
  unfold formatSegChunk clampSeg
  have h1 : max 1 s.start_line - 1 = s.start_line - 1 := by omega
  have h2 : min lines.length (min lines.length s.end_line) =
      min lines.length s.end_line := by omega
  simp only [h1, h2]

/-- Claim C6, counterexample.  A segment reaching past the end of a
one-line buffer is not reported as an error: the call returns normally,
with exactly the output of the clamped in-range segment. -/
theorem claim6_clamp_counterexample :
    webFormatContentSegmented "a" [⟨1, 5, "text"⟩] = "a" ∧
    webFormatContentSegmented "a" [⟨1, 5, "text"⟩] =
      webFormatContentSegmented "a" [⟨1, 1, "text"⟩] := by
  decide

/-- Claim C6, amended.  Formatting never rejects out-of-range segments: it
silently clamps every segment range into the buffer, so replacing each
segment by its clamped version leaves the result unchanged, and the call
always returns a string. -/
theorem claim6_clamp_amended (content : String) (segments : List Segment) :
    webFormatContentSegmented content
        (segments.map (clampSeg (numLines content))) =
      webFormatContentSegmented content segments := by
  unfold webFormatContentSegmented numLines
  by_cases h0 : (splitLines content).length = 0
  · simp only [if_pos h0]
  · simp only [if_neg h0, List.length_map]
    by_cases hs : segments.length = 0
    · simp [hs]
    · simp only [if_neg hs, List.map_map]
      congr 1
      apply List.map_congr_left
      intro s _
      exact formatSegChunk_clamp (splitLines content) s

/-! ## Formatter line counts (claim C5) -/

/-- Character-level join with newlines, inverse of `splitOnChar` on the
newline separator. -/
def joinLinesChars : List (List Char) → List Char
  | [] => []
  | [l] => l
  | l :: rest => l ++ '\n' :: joinLinesChars rest

theorem data_append (a b : String) : (a ++ b).data = a.data ++ b.data := rfl

theorem joinLines_cons (s : String) (l : List String) (h : l ≠ []) :
    joinLines (s :: l) = s ++ "\n" ++ joinLines l := by
  cases l with
  | nil => exact absurd rfl h
  | cons a t => rfl

theorem joinLines_append (A B : List String) (hA : A ≠ []) (hB : B ≠ []) :
    joinLines (A ++ B) = joinLines A ++ "\n" ++ joinLines B := by
  induction A with
  | nil => exact absurd rfl hA
  | cons a t ih =>
    cases t with
    | nil => simp [joinLines_cons a B hB, joinLines]
    | cons b t2 =>
      have hne : (b :: t2) ++ B ≠ [] := by simp
      rw [List.cons_append, joinLines_cons a _ hne, ih (by simp),
        joinLines_cons a (b :: t2) (by simp)]
      apply String.ext
      simp [data_append, List.append_assoc]

theorem joinLines_map_mk :
    ∀ ls : List (List Char), joinLines (ls.map String.mk) =
      String.mk (joinLinesChars ls) := by
  intro ls
  induction ls with
  | nil => rfl
  | cons l rest ih =>
    cases rest with
    | nil => rfl
    | cons l2 t =>
      show joinLines (String.mk l :: (l2 :: t).map String.mk) = _
      rw [joinLines_cons _ _ (by simp), ih]
      apply String.ext
      simp [data_append, joinLinesChars]

theorem joinLinesChars_splitOnChar :
    ∀ l : List Char, joinLinesChars (splitOnChar '\n' l) = l := by
  intro l
  induction l with
  | nil => rfl
  | cons c cs ih =>
    by_cases h : c = '\n'
    · subst h
      obtain ⟨f, t, hs⟩ := List.exists_cons_of_ne_nil (splitOnChar_ne_nil '\n' cs)
      simp only [splitOnChar, if_pos rfl, hs]
      show [] ++ '\n' :: joinLinesChars (f :: t) = '\n' :: cs
      rw [hs] at ih
      simp [ih]
    · obtain ⟨f, t, hs⟩ := List.exists_cons_of_ne_nil (splitOnChar_ne_nil '\n' cs)
      simp only [splitOnChar, if_neg h, hs]
      rw [hs] at ih
      cases t with
      | nil =>
        show c :: f = c :: cs
        simpa [joinLinesChars] using ih
      | cons x xs =>
        show (c :: f) ++ '\n' :: joinLinesChars (x :: xs) = c :: cs
        simpa [joinLinesChars] using congrArg (c :: ·) ih

/-- Joining the split lines of a buffer gives the buffer back. -/
theorem joinLines_splitLines (s : String) : joinLines (splitLines s) = s := by
  rw [splitLines, joinLines_map_mk, joinLinesChars_splitOnChar]

/-- The segment list tiles the line range from `next` through `total`:
each segment starts where the previous one ended plus one, ranges are
well formed and lie inside the buffer, and the last segment ends at
`total`. -/
def tilesFrom : Nat → Nat → List Segment → Prop
  | next, total, [] => next = total + 1
  | next, total, seg :: rest =>
    seg.start_line = next ∧ seg.start_line ≤ seg.end_line ∧
      seg.end_line ≤ total ∧ tilesFrom (seg.end_line + 1) total rest

def tilesFromDec : ∀ next total segs, Decidable (tilesFrom next total segs)
  | _, _, [] => by unfold tilesFrom; exact Nat.decEq _ _
  | _, total, seg :: rest => by
    unfold tilesFrom
    have := tilesFromDec (seg.end_line + 1) total rest
    exact instDecidableAnd

instance (next total : Nat) (segs : List Segment) :
    Decidable (tilesFrom next total segs) := tilesFromDec next total segs

/-- Joining the slices of a tiling, non-`json` segment list reproduces the
joined suffix of the buffer from the tiling start. -/
theorem chunks_join (lines : List String) :
    ∀ (segs : List Segment) (next : Nat), segs ≠ [] → 1 ≤ next →
      tilesFrom next lines.length segs → (∀ s ∈ segs, s.kind ≠ "json") →
      joinLines (segs.map (formatSegChunk lines)) =
        joinLines (lines.drop (next - 1)) := by
  intro segs
  induction segs with
  | nil => intro next h; exact absurd rfl h
  | cons seg rest ih =>
    intro next _ hnext htile hkind
    obtain ⟨hstart, hse, hendL, htrest⟩ := htile
    have hkseg : seg.kind ≠ "json" := hkind seg (List.mem_cons_self _ _)
    have hchunk : formatSegChunk lines seg =
        joinLines ((lines.drop (seg.start_line - 1)).take
          (min lines.length seg.end_line - (seg.start_line - 1))) := by
      unfold formatSegChunk
      simp only [if_neg hkseg]
    cases rest with
    | nil =>
      have hend : seg.end_line = lines.length := by
        have : seg.end_line + 1 = lines.length + 1 := htrest
        omega
      have hmin : min lines.length seg.end_line = lines.length := by omega
      have hfull : (lines.drop (seg.start_line - 1)).take
          (lines.length - (seg.start_line - 1)) = lines.drop (seg.start_line - 1) := by
        have hlen : (lines.drop (seg.start_line - 1)).length =
            lines.length - (seg.start_line - 1) := List.length_drop _ _
        rw [← hlen, List.take_length]
      show joinLines [formatSegChunk lines seg] = _
      rw [hchunk, hmin, hfull, hstart]
      rfl
    | cons r rest2 =>
      have hrs : r.start_line = seg.end_line + 1 := htrest.1
      have hrend : r.end_line ≤ lines.length := htrest.2.2.1
      have hendlt : seg.end_line < lines.length := by
        have := htrest.2.1
        omega
      have hmin : min lines.length seg.end_line = seg.end_line := by omega
      have hA : (lines.drop (seg.start_line - 1)).take
          (seg.end_line - (seg.start_line - 1)) ≠ [] := by
        have h1 : seg.end_line - (seg.start_line - 1) ≠ 0 := by omega
        have h2 : lines.drop (seg.start_line - 1) ≠ [] := by
          rw [ne_eq, List.drop_eq_nil_iff]
          omega
        simp [List.take_eq_nil_iff, h1, h2]
      have hB : lines.drop seg.end_line ≠ [] := by
        rw [ne_eq, List.drop_eq_nil_iff]
        omega
      have hsplit : lines.drop (next - 1) =
          (lines.drop (seg.start_line - 1)).take
            (seg.end_line - (seg.start_line - 1)) ++ lines.drop seg.end_line := by
        rw [← hstart]
        have h1 : (lines.drop (seg.start_line - 1)).drop
            (seg.end_line - (seg.start_line - 1)) = lines.drop seg.end_line := by
          rw [List.drop_drop]
          congr 1
          omega
        rw [← h1, List.take_append_drop]
      have hrec := ih (seg.end_line + 1) (by simp) (by omega) htrest
        (fun s hs => hkind s (List.mem_cons_of_mem _ hs))
      show joinLines (formatSegChunk lines seg :: (r :: rest2).map (formatSegChunk lines)) = _
      rw [joinLines_cons _ _ (by simp), hrec, hsplit,
        joinLines_append _ _ hA hB, hchunk, hmin]
      simp

/-- Claim C5, counterexample.  A one-line `json` segment whose slice
parses successfully is pretty-printed to three lines, so the formatted
buffer does not keep the line count of the original; and (motivating the
coverage restriction of the amendment) a parse-free `text` segment list
that covers only part of the buffer drops the uncovered lines. -/
theorem claim5_line_count_counterexample :
    webFormatJson "\x7b\"a\":1\x7d" = some "\x7b\n  \"a\": 1\n\x7d" ∧
    numLines (webFormatContentSegmented "\x7b\"a\":1\x7d" [⟨1, 1, "json"⟩]) = 3 ∧
    numLines "\x7b\"a\":1\x7d" = 1 ∧
    webFormatContentSegmented "a\nb" [⟨1, 1, "text"⟩] = "a" := by
  decide

/-- Claim C5, amended.  When the non-empty segment list tiles the line
range of the buffer exactly and no segment carries the `json` kind (the
only kind with a registered formatter, whose pretty-printer rewrites line
breaks), the formatted result is the original buffer, and in particular
has the same number of lines. -/
theorem claim5_line_count_amended (content : String) (segments : List Segment)
    (hne : segments ≠ [])
    (htile : tilesFrom 1 (numLines content) segments)
    (hkind : ∀ s ∈ segments, s.kind ≠ "json") :
    webFormatContentSegmented content segments = content ∧
    numLines (webFormatContentSegmented content segments) = numLines content := by
  have hL : ¬ (splitLines content).length = 0 := by
    simpa [List.length_eq_zero] using splitLines_ne_nil content
  have hs : ¬ segments.length = 0 := by
    simpa [List.length_eq_zero] using hne
  have hmain : webFormatContentSegmented content segments = content := by
    unfold webFormatContentSegmented
    simp only [if_neg hL, if_neg hs]
    have := chunks_join (splitLines content) segments 1 hne (le_refl 1) htile hkind
    rw [this]
    simpa using joinLines_splitLines content
  exact ⟨hmain, by rw [hmain]⟩

/-- Claim C5, witness.  A two-line buffer tiled by a `text` segment and a
`csv` segment is returned unchanged with its line count intact. -/
theorem claim5_line_count_witness :
    webFormatContentSegmented "a\nb,c" [⟨1, 1, "text"⟩, ⟨2, 2, "csv"⟩] = "a\nb,c" ∧
    numLines (webFormatContentSegmented "a\nb,c" [⟨1, 1, "text"⟩, ⟨2, 2, "csv"⟩]) =
      numLines "a\nb,c" :=
  claim5_line_count_amended "a\nb,c" [⟨1, 1, "text"⟩, ⟨2, 2, "csv"⟩]
    (by decide) (by decide) (by decide)

end SiftView
